import Mathlib

/-!
Verification of `version_updater.py`, a batch release-update checker.

The program is embedded shallowly: the filesystem is an association list
from paths to byte lists, the network and the regular-expression engine are
oracle functions packaged in an `Env` record, and Python exceptions are
values of an `Exc` type threaded through `Except`.
-/

set_option autoImplicit false

namespace VersionUpdater

/-! ## Filesystem model -/

/-- File contents, as a list of byte values. -/
abbrev Bytes := List Nat

/-- A filesystem: an association list from paths to file contents. -/
abbrev FS := List (String × Bytes)

/-- Read a file: the first entry whose path matches, if any. -/
def fsRead : FS → String → Option Bytes
  | [], _ => none
  | (q, b) :: rest, p => if q = p then some b else fsRead rest p

/-- Models `os.path.exists`. -/
def fsExists (fs : FS) (p : String) : Bool :=
  (fsRead fs p).isSome

/-- Models `os.remove`: drop every entry at the path. -/
def fsRemove : FS → String → FS
  | [], _ => []
  | (q, b) :: rest, p => if q = p then fsRemove rest p else (q, b) :: fsRemove rest p

/-- Models opening a path for writing: the path now holds exactly `b`. -/
def fsWrite (fs : FS) (p : String) (b : Bytes) : FS :=
  (p, b) :: fsRemove fs p

/-- Models `os.rename src dst` when `src` exists; identity otherwise. -/
def fsRename (fs : FS) (src dst : String) : FS :=
  match fsRead fs src with
  | none => fs
  | some b => fsWrite (fsRemove fs src) dst b

theorem fsRead_fsRemove_self (fs : FS) (p : String) :
    fsRead (fsRemove fs p) p = none := by
  induction fs with
  | nil => rfl
  | cons e rest ih =>
    obtain ⟨k, v⟩ := e
    by_cases h : k = p
    · simpa [fsRemove, h] using ih
    · simpa [fsRemove, fsRead, h] using ih

theorem fsRead_fsRemove_ne (fs : FS) (p q : String) (h : q ≠ p) :
    fsRead (fsRemove fs p) q = fsRead fs q := by
  induction fs with
  | nil => rfl
  | cons e rest ih =>
    obtain ⟨k, v⟩ := e
    by_cases hk : k = p
    · have hpq : ¬ p = q := fun hq => h hq.symm
      have hkq : ¬ k = q := fun hq => h (hq.symm.trans hk)
      simpa [fsRemove, hk, fsRead, hkq, hpq] using ih
    · by_cases hkq : k = q
      · simp [fsRemove, hk, fsRead, hkq, h]
      · simpa [fsRemove, hk, fsRead, hkq] using ih

theorem fsRead_fsWrite_self (fs : FS) (p : String) (b : Bytes) :
    fsRead (fsWrite fs p b) p = some b := by
  simp [fsWrite, fsRead]

theorem fsRead_fsWrite_ne (fs : FS) (p q : String) (b : Bytes) (h : q ≠ p) :
    fsRead (fsWrite fs p b) q = fsRead fs q := by
  have hpq : ¬ p = q := fun hq => h hq.symm
  simp [fsWrite, fsRead, hpq]
  exact fsRead_fsRemove_ne fs p q h

/-! ## String helpers -/

/-- Split a character list on a separator character; always at least one group. -/
def splitOnChar (sep : Char) : List Char → List (List Char)
  | [] => [[]]
  | c :: rest =>
    let groups := splitOnChar sep rest
    if c = sep then [] :: groups
    else
      match groups with
      | g :: gs => (c :: g) :: gs
      | [] => [[c]]

/-- Models `os.path.basename` on POSIX paths: the part after the last slash. -/
def basename (p : String) : String :=
  String.mk ((splitOnChar '/' p.data).getLastD [])

/-- Models `tag_name.lstrip('v')` from line 72 of the source: every leading
`v` character is removed. -/
def lstripV (s : String) : String :=
  String.mk (s.data.dropWhile (fun c => c = 'v'))

/-! ## JSON model -/

/-- A minimal JSON value, enough for the configuration document. -/
inductive Json where
  | null
  | str (s : String)
  | num (n : Int)
  | arr (elems : List Json)
  | obj (fields : List (String × Json))

/-- Python exceptions relevant to the program, as values. -/
inductive Exc where
  | keyError
  | typeError
  | indexError
  | fileNotFound
  | jsonDecodeError
  | invalidVersion
  | httpError
  | streamError
  | unboundLocal
  deriving DecidableEq

/-- Look a key up in a JSON object's field list (first match). -/
def jsonFind : List (String × Json) → String → Option Json
  | [], _ => none
  | (k, v) :: rest, key => if k = key then some v else jsonFind rest key

/-- Models Python subscripting `doc[key]`: `KeyError` when the key is absent,
`TypeError` when the value is not a dictionary. -/
def jsonGetKey : Json → String → Except Exc Json
  | .obj fields, key =>
    match jsonFind fields key with
    | some v => .ok v
    | none => .error .keyError
  | _, _ => .error .typeError

/-! ## Version model

`packaging.version.parse` implements PEP 440.  The model below covers the
grammar this program's version strings use: a dotted numeric release with an
optional pre-release suffix (letter `a`/`alpha`/`b`/`beta`/`c`/`rc`/`pre`/
`preview`, optionally preceded by a dash and optionally followed by a
number).  Epoch, post-release, dev-release and local segments, surrounding
whitespace and upper-case letters are outside the modelled subset and are
rejected as invalid.  Pre-release letters are normalised to the codes
`0 = a`, `1 = b`, `2 = rc`, preserving the library's alphabetical order of
the normalised spellings. -/

/-- A parsed version: numeric release segments plus an optional
(pre-release letter code, pre-release number) pair. -/
structure PyVersion where
  release : List Nat
  pre : Option (Nat × Nat)
  deriving DecidableEq

/-- Decimal digits to a number; `none` when empty or not all digits. -/
def natOfDigitsAux : Nat → List Char → Option Nat
  | acc, [] => some acc
  | acc, c :: rest =>
    if c.isDigit then natOfDigitsAux (acc * 10 + (c.toNat - 48)) rest
    else none

/-- Decimal digits to a number; `none` when empty or not all digits. -/
def natOfDigits : List Char → Option Nat
  | [] => none
  | l => natOfDigitsAux 0 l

/-- Parse a dotted numeric release segment list. -/
def parseRelease (l : List Char) : Option (List Nat) :=
  (splitOnChar '.' l).mapM natOfDigits

/-- Normalised code of a pre-release letter (PEP 440 spellings). -/
def preLetterCode : List Char → Option Nat
  | ['a'] => some 0
  | ['a', 'l', 'p', 'h', 'a'] => some 0
  | ['b'] => some 1
  | ['b', 'e', 't', 'a'] => some 1
  | ['c'] => some 2
  | ['r', 'c'] => some 2
  | ['p', 'r', 'e'] => some 2
  | ['p', 'r', 'e', 'v', 'i', 'e', 'w'] => some 2
  | _ => none

/-- Parse a pre-release suffix: letters then an optional number
(missing number means 0, as in the library's normalisation). -/
def parsePre (l : List Char) : Option (Nat × Nat) :=
  let letters := l.takeWhile Char.isAlpha
  let rest := l.drop letters.length
  match preLetterCode letters with
  | none => none
  | some code =>
    match rest with
    | [] => some (code, 0)
    | _ =>
      match natOfDigits rest with
      | some n => some (code, n)
      | none => none

/-- Models `packaging.version.parse` on the subset described above;
`none` models the library raising `InvalidVersion`. -/
def versionParse (s : String) : Option PyVersion :=
  match splitOnChar '-' s.data with
  | [core] =>
    let relChars := core.takeWhile (fun c => c.isDigit || c = '.')
    let preChars := core.drop relChars.length
    match parseRelease relChars with
    | none => none
    | some rel =>
      match preChars with
      | [] => some { release := rel, pre := none }
      | _ =>
        match parsePre preChars with
        | some p => some { release := rel, pre := some p }
        | none => none
  | [core, preChars] =>
    match parseRelease core, parsePre preChars with
    | some rel, some p => some { release := rel, pre := some p }
    | _, _ => none
  | _ => none

/-- Trailing zero segments are ignored in comparisons (PEP 440 key). -/
def stripZeros (l : List Nat) : List Nat :=
  (l.reverse.dropWhile (fun n => n = 0)).reverse

/-- Lexicographic comparison of release segment lists, a shorter list being
a smaller prefix, as for Python tuples. -/
def listCmp : List Nat → List Nat → Ordering
  | [], [] => .eq
  | [], _ :: _ => .lt
  | _ :: _, [] => .gt
  | a :: as, b :: bs =>
    if a < b then .lt else if b < a then .gt else listCmp as bs

/-- Lexicographic comparison of pre-release pairs. -/
def pairCmp (p q : Nat × Nat) : Ordering :=
  if p.1 < q.1 then .lt
  else if q.1 < p.1 then .gt
  else if p.2 < q.2 then .lt
  else if q.2 < p.2 then .gt
  else .eq

/-- Pre-release comparison: absence of a pre-release sorts above every
pre-release of the same release (the library's positive-infinity marker). -/
def preCmp : Option (Nat × Nat) → Option (Nat × Nat) → Ordering
  | none, none => .eq
  | none, some _ => .gt
  | some _, none => .lt
  | some p, some q => pairCmp p q

/-- Models the comparison of two `packaging.version.Version` values:
release keys first (trailing zeros stripped), then the pre-release part. -/
def vcmp (a b : PyVersion) : Ordering :=
  match listCmp (stripZeros a.release) (stripZeros b.release) with
  | .eq => preCmp a.pre b.pre
  | o => o

/-- Models `remote_ver <= local_ver` on parsed versions. -/
def vle (a b : PyVersion) : Bool :=
  vcmp a b ≠ Ordering.gt

/-- The comparison the orchestrator applies to two version strings, when
both parse. -/
def vcmpStr (s t : String) : Option Ordering :=
  match versionParse s, versionParse t with
  | some a, some b => some (vcmp a b)
  | _, _ => none

/-! ## Releases, downloads and the environment -/

/-- One downloadable file of a release, per the release API schema. -/
structure Asset where
  name : String
  browser_download_url : String
  deriving DecidableEq

/-- The latest-release document: tag name and the assets in listed order. -/
structure Release where
  tag_name : String
  assets : List Asset
  deriving DecidableEq

/-- Outcome of fetching one URL with a streaming GET. -/
inductive DownloadOutcome where
  /-- Success: these are the downloaded bytes. -/
  | ok (bytes : Bytes)
  /-- Non-success HTTP status: `raise_for_status` fires before the
  destination file is opened. -/
  | httpError
  /-- The stream breaks mid-transfer after the given bytes were written. -/
  | streamBroken (written : Bytes)
  deriving DecidableEq

/-- The program's surroundings: the regular-expression engine, the release
API, the download network and the JSON decoder, as oracle functions.
`reSearch pat text` returns `none` when the pattern does not match, and
otherwise the match's groups, group 0 being the whole match and a group
that did not participate being `none`. -/
structure Env where
  reSearch : String → String → Option (List (Option String))
  fetchRelease : String → Except Exc Release
  download : String → DownloadOutcome
  parseJson : Bytes → Option Json

/-- A repository configuration dictionary: string keys to string values,
the shape the configuration schema prescribes. -/
abbrev Cfg := List (String × String)

/-- Python dictionary lookup on a configuration (first match). -/
def dictGet : Cfg → String → Option String
  | [], _ => none
  | (k, v) :: rest, key => if k = key then some v else dictGet rest key

/-! ## The source functions -/

/-- Models `load_repositories` (source lines 9-15): `FileNotFoundError` when the
path does not exist, otherwise decode the file as JSON and take the value
under the top-level key `repositories`. -/
def load_repositories (env : Env) (fs : FS) (config_path : String) :
    Except Exc Json :=
  match fsRead fs config_path with
  | none => .error .fileNotFound
  | some content =>
    match env.parseJson content with
    | none => .error .jsonDecodeError
    | some doc => jsonGetKey doc "repositories"

/-- Models `get_local_version` (source lines 17-25): `none` when the file does not
exist; otherwise search the version pattern in the file's base name and
return group 1.  `group(1)` raises `IndexError` when the pattern has no
first group. -/
def get_local_version (env : Env) (fs : FS)
    (file_path version_pattern : String) : Except Exc (Option String) :=
  if fsExists fs file_path then
    match env.reSearch version_pattern (basename file_path) with
    | some groups =>
      match groups.get? 1 with
      | some g => .ok g
      | none => .error .indexError
    | none => .ok none
  else .ok none

/-- Models `get_latest_release` (source lines 27-32): one synchronous GET against
the latest-release endpoint for the repository; the outcome is the
environment's answer for that repository identifier. -/
def get_latest_release (env : Env) (repo : String) : Except Exc Release :=
  env.fetchRelease repo

/-- The scan inside `find_asset_url`: first asset whose name matches. -/
def findAssetIn (env : Env) (asset_pattern : String) :
    List Asset → Option String
  | [] => none
  | a :: rest =>
    if (env.reSearch asset_pattern a.name).isSome then
      some a.browser_download_url
    else findAssetIn env asset_pattern rest

/-- Models `find_asset_url` (source lines 34-39): walk `release['assets']` in
order and return the `browser_download_url` of the first asset whose name
matches the pattern, else `None`. -/
def find_asset_url (env : Env) (release : Release) (asset_pattern : String) :
    Option String :=
  findAssetIn env asset_pattern release.assets

/-- Models `download_file` (source lines 41-48): stream the URL to `save_path`.
A non-success status raises before the file is opened; a broken stream
leaves the bytes received so far at `save_path` and raises; on success the
full body is at `save_path`. -/
def download_file (env : Env) (fs : FS) (url save_path : String) :
    FS × Option Exc :=
  match env.download url with
  | .ok bytes => (fsWrite fs save_path bytes, none)
  | .httpError => (fs, some .httpError)
  | .streamBroken written => (fsWrite fs save_path written, some .streamError)

/-- Result of the `try` body of `update_repository`: either a normal return
value, or an exception together with the filesystem at raise time, whether
the local `repo_name` had been assigned, and the value of the local
`temp_file` when it had been assigned (the handler inspects both). -/
inductive BodyResult where
  | ok (fs : FS) (result : Bool)
  | raised (fs : FS) (e : Exc) (repoNameBound : Bool) (tempFile : Option String)

/-- The `try` body of `update_repository` (source lines 52-99), translated
statement by statement.  The five lookups of lines 53-57 raise `KeyError`
before `repo_name` is assigned; every later raise happens with `repo_name`
assigned, and raises from `download_file` happen with `temp_file` assigned. -/
def updateBody (env : Env) (fs : FS) (repo_config : Cfg) : BodyResult :=
  match dictGet repo_config "github_repo" with
  | none => .raised fs .keyError false none
  | some repo =>
  match dictGet repo_config "local_file" with
  | none => .raised fs .keyError false none
  | some local_file =>
  match dictGet repo_config "version_pattern" with
  | none => .raised fs .keyError false none
  | some version_pattern =>
  let asset_pattern := (dictGet repo_config "asset_pattern").getD version_pattern
  match dictGet repo_config "name" with
  | none => .raised fs .keyError false none
  | some _repo_name =>
  match get_local_version env fs local_file version_pattern with
  | .error e => .raised fs e true none
  | .ok none => .ok fs false
  | .ok (some local_ver_str) =>
  if local_ver_str = "" then .ok fs false
  else
  match versionParse local_ver_str with
  | none => .raised fs .invalidVersion true none
  | some local_ver =>
  match get_latest_release env repo with
  | .error e => .raised fs e true none
  | .ok release =>
  match versionParse (lstripV release.tag_name) with
  | none => .raised fs .invalidVersion true none
  | some remote_ver =>
  if vle remote_ver local_ver then .ok fs true
  else
  match find_asset_url env release asset_pattern with
  | none => .ok fs false
  | some asset_url =>
  let temp_file := local_file ++ ".tmp"
  match download_file env fs asset_url temp_file with
  | (fs1, some e) => .raised fs1 e true (some temp_file)
  | (fs1, none) =>
  let fs2 := if fsExists fs1 local_file then fsRemove fs1 local_file else fs1
  .ok (fsRename fs2 temp_file local_file) true

/-- Models `update_repository` (source lines 50-105): run the body; on a raise the
handler first prints `repo_name` — raising `UnboundLocalError` when that
local was never assigned, an exception that escapes the function — and then
removes the temporary file when the local `temp_file` exists and names an
existing path, and returns `False`. -/
def update_repository (env : Env) (fs : FS) (repo_config : Cfg) :
    FS × Except Exc Bool :=
  match updateBody env fs repo_config with
  | .ok fs1 b => (fs1, .ok b)
  | .raised fs1 _ repoNameBound tempFile =>
    if repoNameBound then
      match tempFile with
      | some tf =>
        (if fsExists fs1 tf then fsRemove fs1 tf else fs1, .ok false)
      | none => (fs1, .ok false)
    else (fs1, .error .unboundLocal)

/-- The `for` loop of `main` (source lines 114-115): run the repositories
in order, collecting each completed call's boolean; an exception escaping
`update_repository` aborts the loop (it is caught by `main`'s top-level
handler), which the final flag records. -/
def runRepos (env : Env) : FS → List Cfg → FS × List Bool × Bool
  | fs, [] => (fs, [], false)
  | fs, cfg :: rest =>
    match update_repository env fs cfg with
    | (fs1, .ok b) =>
      match runRepos env fs1 rest with
      | (fs2, results, aborted) => (fs2, b :: results, aborted)
    | (fs1, .error _) => (fs1, [], true)

/-- One configuration object of the parsed array, as a string-valued
dictionary; `none` when the element does not have that shape. -/
def cfgOfJson : Json → Option Cfg
  | .obj fields =>
    fields.mapM (fun kv =>
      match kv.2 with
      | .str s => some (kv.1, s)
      | _ => none)
  | _ => none

/-- The iteration domain of `main`'s loop: the parsed `repositories` value
must be an array of string-valued objects, the shape the configuration
schema prescribes; any other shape is modelled as a top-level `TypeError`. -/
def jsonToCfgs : Json → Except Exc (List Cfg)
  | .arr elems =>
    match elems.mapM cfgOfJson with
    | some cfgs => .ok cfgs
    | none => .error .typeError
  | _ => .error .typeError

/-- Models `main` (source lines 107-120): load the configuration once; on any
exception there, report and stop with nothing processed (`none`);
otherwise run the loop, whose own abort is likewise caught at top level. -/
def main (env : Env) (fs : FS) : FS × Option (List Bool × Bool) :=
  match load_repositories env fs "repo.json" with
  | .error _ => (fs, none)
  | .ok reposJson =>
    match jsonToCfgs reposJson with
    | .error _ => (fs, none)
    | .ok cfgs =>
      match runRepos env fs cfgs with
      | (fs1, results, aborted) => (fs1, some (results, aborted))

/-! ## Order lemmas for the version comparison -/

theorem listCmp_eq_iff : ∀ (a b : List Nat), listCmp a b = .eq ↔ a = b := by
  intro a
  induction a with
  | nil => intro b; cases b <;> simp [listCmp]
  | cons x xs ih =>
    intro b
    cases b with
    | nil => simp [listCmp]
    | cons y ys =>
      by_cases h1 : x < y
      · have hne : x ≠ y := Nat.ne_of_lt h1
        simp [listCmp, h1, hne]
      · by_cases h2 : y < x
        · have hne : x ≠ y := (Nat.ne_of_lt h2).symm
          simp [listCmp, h1, h2, hne]
        · have hxy : x = y := Nat.le_antisymm (Nat.le_of_not_lt h2) (Nat.le_of_not_lt h1)
          simp [listCmp, h1, h2, hxy, ih]

theorem listCmp_swap : ∀ (a b : List Nat), listCmp b a = (listCmp a b).swap := by
  intro a
  induction a with
  | nil => intro b; cases b <;> simp [listCmp, Ordering.swap]
  | cons x xs ih =>
    intro b
    cases b with
    | nil => simp [listCmp, Ordering.swap]
    | cons y ys =>
      by_cases h1 : x < y
      · have h2 : ¬ y < x := by omega
        simp [listCmp, h1, h2, Ordering.swap]
      · by_cases h2 : y < x
        · simp [listCmp, h1, h2, Ordering.swap]
        · simp [listCmp, h1, h2, ih]

theorem listCmp_lt_trans : ∀ (a b c : List Nat),
    listCmp a b = .lt → listCmp b c = .lt → listCmp a c = .lt := by
  intro a
  induction a with
  | nil =>
    intro b c h1 h2
    cases c with
    | nil =>
      cases b with
      | nil => exact h1
      | cons y ys => simp [listCmp] at h2
    | cons z zs => simp [listCmp]
  | cons x xs ih =>
    intro b c h1 h2
    cases b with
    | nil => simp [listCmp] at h1
    | cons y ys =>
      cases c with
      | nil => simp [listCmp] at h2
      | cons z zs =>
        simp only [listCmp] at h1 h2 ⊢
        by_cases hxy : x < y
        · by_cases hyz : y < z
          · have hxz : x < z := by omega
            simp [hxz]
          · by_cases hzy : z < y
            · simp [hyz, hzy] at h2
            · have heq : y = z := by omega
              subst heq
              simp [hxy]
        · by_cases hyx : y < x
          · simp [hxy, hyx] at h1
          · have heq : x = y := by omega
            subst heq
            simp [Nat.lt_irrefl] at h1
            by_cases hxz : x < z
            · simp [hxz]
            · by_cases hzx : z < x
              · simp [hxz, hzx] at h2
              · have heq2 : x = z := by omega
                subst heq2
                simp [Nat.lt_irrefl] at h2 ⊢
                exact ih ys zs h1 h2

theorem pairCmp_eq_iff (p q : Nat × Nat) : pairCmp p q = .eq ↔ p = q := by
  obtain ⟨a, b⟩ := p
  obtain ⟨c, d⟩ := q
  simp only [pairCmp, Prod.mk.injEq]
  split_ifs <;> simp <;> omega

theorem pairCmp_swap (p q : Nat × Nat) : pairCmp q p = (pairCmp p q).swap := by
  obtain ⟨a, b⟩ := p
  obtain ⟨c, d⟩ := q
  simp only [pairCmp]
  split_ifs <;> simp_all [Ordering.swap] <;> omega

theorem pairCmp_ne_gt_iff (p q : Nat × Nat) :
    pairCmp p q ≠ .gt ↔ (p.1 < q.1 ∨ (p.1 = q.1 ∧ p.2 ≤ q.2)) := by
  obtain ⟨a, b⟩ := p
  obtain ⟨c, d⟩ := q
  simp only [pairCmp]
  split_ifs <;> simp <;> omega

theorem pairCmp_ne_gt_trans (p q r : Nat × Nat)
    (h1 : pairCmp p q ≠ .gt) (h2 : pairCmp q r ≠ .gt) : pairCmp p r ≠ .gt := by
  obtain ⟨a, b⟩ := p
  obtain ⟨c, d⟩ := q
  obtain ⟨e, f⟩ := r
  rw [pairCmp_ne_gt_iff] at h1 h2 ⊢
  simp only at h1 h2 ⊢
  omega

theorem preCmp_swap : ∀ (p q : Option (Nat × Nat)), preCmp q p = (preCmp p q).swap := by
  intro p q
  match p, q with
  | none, none => rfl
  | none, some y => rfl
  | some x, none => rfl
  | some x, some y => exact pairCmp_swap x y

theorem preCmp_eq_iff : ∀ (p q : Option (Nat × Nat)), preCmp p q = .eq ↔ p = q := by
  intro p q
  match p, q with
  | none, none => simp [preCmp]
  | none, some y => simp [preCmp]
  | some x, none => simp [preCmp]
  | some x, some y => simp [preCmp, pairCmp_eq_iff]

theorem preCmp_ne_gt_trans : ∀ (p q r : Option (Nat × Nat)),
    preCmp p q ≠ .gt → preCmp q r ≠ .gt → preCmp p r ≠ .gt := by
  intro p q r h1 h2
  match p, q, r with
  | none, none, r => exact h2
  | none, some y, r => simp [preCmp] at h1
  | some x, q, none => simp [preCmp]
  | some x, none, some z => simp [preCmp] at h2
  | some x, some y, some z => exact pairCmp_ne_gt_trans x y z h1 h2

theorem vcmp_swap (a b : PyVersion) : vcmp b a = (vcmp a b).swap := by
  unfold vcmp
  rw [show listCmp (stripZeros b.release) (stripZeros a.release)
      = (listCmp (stripZeros a.release) (stripZeros b.release)).swap from
    listCmp_swap _ _]
  cases listCmp (stripZeros a.release) (stripZeros b.release) with
  | lt => rfl
  | eq => exact preCmp_swap a.pre b.pre
  | gt => rfl

theorem vcmp_ne_gt_trans (a b c : PyVersion)
    (h1 : vcmp a b ≠ .gt) (h2 : vcmp b c ≠ .gt) : vcmp a c ≠ .gt := by
  unfold vcmp at h1 h2 ⊢
  cases hab : listCmp (stripZeros a.release) (stripZeros b.release) with
  | lt =>
    cases hbc : listCmp (stripZeros b.release) (stripZeros c.release) with
    | lt =>
      rw [listCmp_lt_trans _ _ _ hab hbc]
      simp
    | eq =>
      have hbc2 := (listCmp_eq_iff _ _).mp hbc
      rw [← hbc2, hab]
      simp
    | gt => rw [hbc] at h2; simp at h2
  | eq =>
    have hab2 := (listCmp_eq_iff _ _).mp hab
    rw [hab] at h1
    cases hbc : listCmp (stripZeros b.release) (stripZeros c.release) with
    | lt =>
      rw [hab2, hbc]
      simp
    | eq =>
      rw [hbc] at h2
      rw [hab2, hbc]
      exact preCmp_ne_gt_trans _ _ _ h1 h2
    | gt => rw [hbc] at h2; simp at h2
  | gt => rw [hab] at h1; simp at h1

theorem vle_iff (a b : PyVersion) : vle a b = true ↔ vcmp a b ≠ Ordering.gt := by
  simp [vle]

theorem vle_total (a b : PyVersion) : vle a b = true ∨ vle b a = true := by
  rw [vle_iff, vle_iff]
  by_cases h : vcmp a b = .gt
  · right
    rw [vcmp_swap, h]
    simp [Ordering.swap]
  · left
    exact h

theorem vle_antisymm (a b : PyVersion)
    (h1 : vle a b = true) (h2 : vle b a = true) : vcmp a b = .eq := by
  rw [vle_iff] at h1 h2
  rw [vcmp_swap] at h2
  cases h : vcmp a b with
  | lt => rw [h] at h2; simp [Ordering.swap] at h2
  | eq => rfl
  | gt => exact absurd h h1

theorem vle_trans (a b c : PyVersion)
    (h1 : vle a b = true) (h2 : vle b c = true) : vle a c = true := by
  rw [vle_iff] at h1 h2 ⊢
  exact vcmp_ne_gt_trans a b c h1 h2

/-! ## Path lemmas -/

theorem tmp_ne (s : String) : s ++ ".tmp" ≠ s := by
  intro h
  have h2 : (s ++ ".tmp").length = s.length := by rw [h]
  rw [String.length_append] at h2
  have h4 : (".tmp" : String).length = 4 := rfl
  omega

theorem condRemove_read_other (fs1 : FS) (lf q : String) (hne : q ≠ lf) :
    fsRead (if fsExists fs1 lf then fsRemove fs1 lf else fs1) q = fsRead fs1 q := by
  split
  · exact fsRead_fsRemove_ne fs1 lf q hne
  · rfl

theorem rename_into_place (fs2 : FS) (lf : String) (bytes : Bytes)
    (h : fsRead fs2 (lf ++ ".tmp") = some bytes) :
    fsRead (fsRename fs2 (lf ++ ".tmp") lf) lf = some bytes ∧
    fsRead (fsRename fs2 (lf ++ ".tmp") lf) (lf ++ ".tmp") = none := by
  have hne : lf ++ ".tmp" ≠ lf := tmp_ne lf
  unfold fsRename
  rw [h]
  constructor
  · exact fsRead_fsWrite_self _ _ _
  · rw [fsRead_fsWrite_ne _ _ _ _ hne]
    exact fsRead_fsRemove_self _ _

/-! ## Definitions following the claims' words (for comparison) -/

/-- Follows claim C2's words: the tag name with exactly one leading literal
`v` removed when the tag starts with `v`, and unchanged otherwise. -/
def specStripOneV (s : String) : String :=
  match s.data with
  | 'v' :: rest => String.mk rest
  | _ => s

/-- Follows the amended claim C2's words: leading `v` characters are
removed one at a time for as long as the string starts with `v`. -/
def specStripAllV : List Char → List Char
  | [] => []
  | c :: rest => if c = 'v' then specStripAllV rest else c :: rest

theorem dropWhileV_eq_specStripAllV (l : List Char) :
    l.dropWhile (fun c => c = 'v') = specStripAllV l := by
  induction l with
  | nil => rfl
  | cons c rest ih =>
    by_cases h : c = 'v'
    · simp [List.dropWhile_cons, specStripAllV, h, ih]
    · simp [List.dropWhile_cons, specStripAllV, h]

/-! ## Concrete example environment (used by the witnesses) -/

/-- A release with tag `v1.3.0` and one matching asset at `URL`. -/
def exRelease : Release := ⟨"v1.3.0", [⟨"tool-1.3.0.bin", "URL"⟩]⟩

/-- Like `exRelease`, but the asset's URL downloads with a broken stream. -/
def exReleaseBad : Release := ⟨"v1.3.0", [⟨"tool-1.3.0.bin", "BAD"⟩]⟩

/-- A release whose tag equals the locally installed version. -/
def exReleaseOld : Release := ⟨"v1.2.0", [⟨"tool-1.2.0.bin", "URL"⟩]⟩

/-- A concrete environment: pattern `VP` extracts dotted versions from the
two file names it knows, pattern `EP` matches `tool.bin` with an empty
capture, three repositories answer with the releases above, fetching `URL`
succeeds with bytes `[9, 9]` and any other URL breaks mid-stream, and the
JSON decoder knows the single byte string `[123]`. -/
def exEnv : Env where
  reSearch := fun pat text =>
    if pat = "VP" ∧ text = "tool.bin" then some [some "1.2.0", some "1.2.0"]
    else if pat = "VP" ∧ text = "tool-1.3.0.bin" then some [some "1.3.0", some "1.3.0"]
    else if pat = "EP" ∧ text = "tool.bin" then some [some "", some ""]
    else none
  fetchRelease := fun r =>
    if r = "owner/repo" then .ok exRelease
    else if r = "owner/bad" then .ok exReleaseBad
    else if r = "owner/old" then .ok exReleaseOld
    else .error .httpError
  download := fun u => if u = "URL" then .ok [9, 9] else .streamBroken [7]
  parseJson := fun b =>
    if b = [123] then some (.obj [("repositories", .arr [])]) else none

/-- A well-formed configuration against `owner/repo`. -/
def exCfg : Cfg := [("name", "tool"), ("github_repo", "owner/repo"),
  ("local_file", "tool.bin"), ("version_pattern", "VP")]

/-- The same configuration pointed at the repository whose asset URL fails. -/
def exCfgBad : Cfg := [("name", "tool"), ("github_repo", "owner/bad"),
  ("local_file", "tool.bin"), ("version_pattern", "VP")]

/-- The same configuration pointed at the up-to-date repository. -/
def exCfgOld : Cfg := [("name", "tool"), ("github_repo", "owner/old"),
  ("local_file", "tool.bin"), ("version_pattern", "VP")]

/-- A configuration whose version pattern captures the empty string. -/
def exCfgEmpty : Cfg := [("name", "tool"), ("github_repo", "owner/repo"),
  ("local_file", "tool.bin"), ("version_pattern", "EP")]

/-- A filesystem holding the local artifact. -/
def exFS : FS := [("tool.bin", [1, 2, 3])]

/-- The local artifact under a directory, to exercise base names. -/
def exFSDir : FS := [("dir/tool.bin", [1, 2, 3])]

/-- A filesystem holding only the configuration file. -/
def exFSConfig : FS := [("repo.json", [123])]

/-! ## Claims -/

/-- C1 (code bug): the claim says an exception while processing one entry —
including a lookup failure for a missing required key — never prevents the
following entries from being processed.  The code disagrees: the handler of
`update_repository` prints `repo_name` before cleaning up, and when the
raise happened in the key lookups of lines 53-57 that local was never
assigned, so the handler itself raises `UnboundLocalError`, which escapes
to `main`'s top-level handler and ends the batch.  Concretely, with a first
configuration that is missing every required key and a second well-formed
one, the loop aborts on the first entry and the second is never processed:
the run ends with no completed entries and the abort flag set. -/
theorem c1_missing_key_aborts_batch :
    update_repository exEnv exFS ([] : Cfg) = (exFS, .error .unboundLocal) ∧
    runRepos exEnv exFS [([] : Cfg), exCfg] = (exFS, [], true) :=
  ⟨rfl, rfl⟩

/-- C2 counterexample: for the tag `vv1.2.3`, which starts with `v`, the
code's `lstrip` removes both leading `v` characters, not exactly one as the
claim states. -/
theorem c2_counterexample_double_v :
    lstripV "vv1.2.3" = "1.2.3" ∧ specStripOneV "vv1.2.3" = "v1.2.3" ∧
      ("1.2.3" : String) ≠ "v1.2.3" :=
  ⟨rfl, rfl, by decide⟩

/-- C2 (amended): the remote version string the orchestrator parses equals
the tag name with every leading literal `v` character removed (so it is
unchanged when the tag does not start with `v`, and loses exactly one `v`
only when a second one does not follow). -/
theorem c2_remote_version_strips_all_leading_v (tag : String) :
    lstripV tag = String.mk (specStripAllV tag.data) := by
  unfold lstripV
  rw [dropWhileV_eq_specStripAllV]

/-- C5: the local version extractor returns none when the file does not
exist; otherwise it applies the pattern to the base name only and returns
the first capturing group's text on a match and none on a non-match; the
result never depends on the file's contents, only on its existence. -/
theorem c5_local_version_extractor (env : Env) (fs : FS) (path pat : String) :
    (fsExists fs path = false → get_local_version env fs path pat = .ok none) ∧
    (∀ gs g, fsExists fs path = true →
      env.reSearch pat (basename path) = some gs → gs.get? 1 = some (some g) →
      get_local_version env fs path pat = .ok (some g)) ∧
    (fsExists fs path = true → env.reSearch pat (basename path) = none →
      get_local_version env fs path pat = .ok none) ∧
    (∀ fs2 : FS, fsExists fs path = fsExists fs2 path →
      get_local_version env fs path pat = get_local_version env fs2 path pat) := by
  refine ⟨?_, ?_, ?_, ?_⟩
  · intro h
    simp [get_local_version, h]
  · intro gs g h1 h2 h3
    rw [List.get?_eq_getElem?] at h3
    simp [get_local_version, h1, h2, h3]
  · intro h1 h2
    simp [get_local_version, h1, h2]
  · intro fs2 h
    unfold get_local_version
    rw [← h]

/-- C5 witness: a concrete file under a directory; the pattern is applied
to the base name and the captured text is returned. -/
theorem c5_local_version_extractor_witness :
    get_local_version exEnv exFSDir "dir/tool.bin" "VP" = .ok (some "1.2.0") :=
  (c5_local_version_extractor exEnv exFSDir "dir/tool.bin" "VP").2.1
    [some "1.2.0", some "1.2.0"] "1.2.0" rfl rfl rfl

/-- C6: the asset resolver returns the download URL of the first asset in
listed order whose name matches the pattern, and none when the asset list
is empty or nothing matches; with several matches the earliest wins. -/
theorem c6_asset_resolver (env : Env) (pat tag : String) :
    (find_asset_url env ⟨tag, []⟩ pat = none) ∧
    (∀ assets : List Asset, (∀ a ∈ assets, env.reSearch pat a.name = none) →
      find_asset_url env ⟨tag, assets⟩ pat = none) ∧
    (∀ (before after : List Asset) (a : Asset),
      (∀ x ∈ before, env.reSearch pat x.name = none) →
      (env.reSearch pat a.name).isSome = true →
      find_asset_url env ⟨tag, before ++ a :: after⟩ pat
        = some a.browser_download_url) := by
  refine ⟨rfl, ?_, ?_⟩
  · intro assets h
    induction assets with
    | nil => rfl
    | cons a rest ih =>
      have ha := h a (by simp)
      simp only [find_asset_url, findAssetIn, ha, Option.isSome_none,
        Bool.false_eq_true, if_false]
      exact ih (fun x hx => h x (by simp [hx]))
  · intro before after a hb hm
    induction before with
    | nil =>
      simp only [List.nil_append, find_asset_url, findAssetIn, hm, if_true]
    | cons x xs ih =>
      have hx := hb x (by simp)
      simp only [List.cons_append, find_asset_url, findAssetIn, hx,
        Option.isSome_none, Bool.false_eq_true, if_false]
      exact ih (fun y hy => hb y (by simp [hy]))

/-- C6 witness: with a first non-matching asset and a matching second one,
the second asset's URL is returned. -/
theorem c6_asset_resolver_witness :
    find_asset_url exEnv ⟨"v9", [⟨"notes.txt", "U0"⟩, ⟨"tool-1.3.0.bin", "URL"⟩]⟩ "VP"
      = some "URL" :=
  (c6_asset_resolver exEnv "VP" "v9").2.2 [⟨"notes.txt", "U0"⟩] []
    ⟨"tool-1.3.0.bin", "URL"⟩ (by intro x hx; simp at hx; subst hx; rfl) rfl

/-- C8: the config loader fails with the not-found error exactly when the
path does not exist; otherwise it decodes the file and returns the value
under the top-level key `repositories`; and a loader failure makes `main`
stop with nothing processed instead of treating it per-repository. -/
theorem c8_config_loader (env : Env) (fs : FS) (path : String) :
    (fsRead fs path = none → load_repositories env fs path = .error .fileNotFound) ∧
    (fsRead fs path ≠ none → load_repositories env fs path ≠ .error .fileNotFound) ∧
    (∀ content doc v, fsRead fs path = some content →
      env.parseJson content = some doc → jsonGetKey doc "repositories" = .ok v →
      load_repositories env fs path = .ok v) ∧
    (∀ e, load_repositories env fs "repo.json" = .error e → main env fs = (fs, none)) := by
  refine ⟨?_, ?_, ?_, ?_⟩
  · intro h
    simp [load_repositories, h]
  · intro h
    cases hr : fsRead fs path with
    | none => exact absurd hr h
    | some content =>
      cases hp : env.parseJson content with
      | none => simp [load_repositories, hr, hp]
      | some doc =>
        cases doc with
        | obj fields =>
          cases hf : jsonFind fields "repositories" with
          | none => simp [load_repositories, hr, hp, jsonGetKey, hf]
          | some v => simp [load_repositories, hr, hp, jsonGetKey, hf]
        | null => simp [load_repositories, hr, hp, jsonGetKey]
        | str s => simp [load_repositories, hr, hp, jsonGetKey]
        | num n => simp [load_repositories, hr, hp, jsonGetKey]
        | arr l => simp [load_repositories, hr, hp, jsonGetKey]
  · intro content doc v h1 h2 h3
    simp [load_repositories, h1, h2, h3]
  · intro e h
    simp [main, h]

/-- C8 witness: a present configuration file decodes and yields the value
under `repositories`. -/
theorem c8_config_loader_witness :
    load_repositories exEnv exFSConfig "repo.json" = .ok (.arr []) :=
  (c8_config_loader exEnv exFSConfig "repo.json").2.2.1 [123]
    (.obj [("repositories", .arr [])]) (.arr []) rfl rfl rfl

/-- C9: the version comparison the orchestrator uses is a total order
(total, antisymmetric up to comparison-equality, transitive) and on the
spec's concrete pairs orders `2.10.0` above `2.9.9`, `1.0.0` equal to
`1.0.0`, and `1.0.0-rc1` below `1.0.0`. -/
theorem c9_version_comparison_total_order :
    vcmpStr "2.10.0" "2.9.9" = some .gt ∧
    vcmpStr "1.0.0" "1.0.0" = some .eq ∧
    vcmpStr "1.0.0-rc1" "1.0.0" = some .lt ∧
    (∀ a b : PyVersion, vle a b = true ∨ vle b a = true) ∧
    (∀ a b : PyVersion, vle a b = true → vle b a = true → vcmp a b = .eq) ∧
    (∀ a b c : PyVersion, vle a b = true → vle b c = true → vle a c = true) :=
  ⟨by decide, by decide, by decide, vle_total, vle_antisymm, vle_trans⟩

/-- C9 witness: transitivity applied at concrete versions. -/
theorem c9_version_comparison_total_order_witness :
    vle ⟨[1, 2], none⟩ ⟨[2], none⟩ = true :=
  c9_version_comparison_total_order.2.2.2.2.2 ⟨[1, 2], none⟩ ⟨[1, 5], none⟩
    ⟨[2], none⟩ (by decide) (by decide)

/-- C10: when the version pattern matches the local base name but group 1
captures the empty string, the extractor returns the empty string, yet the
orchestrator treats it like an unresolved version (`if not local_ver_str`
is taken for the empty string too): it fails the repository and never
fetches the remote release, whatever the release endpoint would answer. -/
theorem c10_empty_capture_fails_before_fetch (env : Env) (fs : FS) (cfg : Cfg)
    (repo lf vp nm : String) (gs : List (Option String))
    (h1 : dictGet cfg "github_repo" = some repo)
    (h2 : dictGet cfg "local_file" = some lf)
    (h3 : dictGet cfg "version_pattern" = some vp)
    (h4 : dictGet cfg "name" = some nm)
    (h5 : fsExists fs lf = true)
    (h6 : env.reSearch vp (basename lf) = some gs)
    (h7 : gs.get? 1 = some (some "")) :
    get_local_version env fs lf vp = .ok (some "") ∧
    ∀ fr, update_repository { env with fetchRelease := fr } fs cfg = (fs, .ok false) := by
  have hg : get_local_version env fs lf vp = .ok (some "") := by
    rw [List.get?_eq_getElem?] at h7
    simp [get_local_version, h5, h6, h7]
  refine ⟨hg, fun fr => ?_⟩
  have hg2 : get_local_version { env with fetchRelease := fr } fs lf vp
      = Except.ok (some "") := hg
  simp [update_repository, updateBody, h1, h2, h3, h4, hg2]

/-- C10 witness: the empty-capture configuration fails without any fetch. -/
theorem c10_empty_capture_fails_before_fetch_witness :
    update_repository { exEnv with fetchRelease := exEnv.fetchRelease } exFS exCfgEmpty
      = (exFS, .ok false) :=
  (c10_empty_capture_fails_before_fetch exEnv exFS exCfgEmpty "owner/repo"
    "tool.bin" "EP" "tool" [some "", some ""] rfl rfl rfl rfl rfl rfl rfl).2
    exEnv.fetchRelease

/-! ## The download / replace branch -/

theorem condRemove_read_self (fs : FS) (p : String) :
    fsRead (if fsExists fs p then fsRemove fs p else fs) p = none := by
  by_cases h : fsExists fs p = true
  · simp only [h, if_true]
    exact fsRead_fsRemove_self _ _
  · simp only [h, if_false]
    unfold fsExists at h
    exact Option.not_isSome_iff_eq_none.mp (by simpa using h)

/-- Under the hypotheses of a run that reaches the download with a working
stream, the whole orchestrator turn evaluates to: write the body to
`<local_file>.tmp`, remove `local_file` when it exists, rename the
temporary into place, and report success. -/
theorem update_run_success (env : Env) (fs : FS) (cfg : Cfg)
    (repo lf vp nm s url : String) (bytes : Bytes) (lv rv : PyVersion) (rel : Release)
    (h1 : dictGet cfg "github_repo" = some repo)
    (h2 : dictGet cfg "local_file" = some lf)
    (h3 : dictGet cfg "version_pattern" = some vp)
    (h4 : dictGet cfg "name" = some nm)
    (h5 : get_local_version env fs lf vp = .ok (some s))
    (h6 : s ≠ "")
    (h7 : versionParse s = some lv)
    (h8 : env.fetchRelease repo = .ok rel)
    (h9 : versionParse (lstripV rel.tag_name) = some rv)
    (hle : vle rv lv = false)
    (hfind : find_asset_url env rel ((dictGet cfg "asset_pattern").getD vp) = some url)
    (hdl : env.download url = .ok bytes) :
    update_repository env fs cfg =
      (fsRename (if fsExists (fsWrite fs (lf ++ ".tmp") bytes) lf
          then fsRemove (fsWrite fs (lf ++ ".tmp") bytes) lf
          else fsWrite fs (lf ++ ".tmp") bytes) (lf ++ ".tmp") lf,
        .ok true) := by
  have h8g : get_latest_release env repo = Except.ok rel := h8
  simp [update_repository, updateBody, h1, h2, h3, h4, h5, h6, h7, h8g, h9,
    hle, hfind, download_file, hdl]

/-- After the write / conditional-remove / rename sequence, `local_file`
holds the downloaded bytes and the temporary path is gone. -/
theorem replaced_reads (fs : FS) (lf : String) (bytes : Bytes) :
    fsRead (fsRename (if fsExists (fsWrite fs (lf ++ ".tmp") bytes) lf
        then fsRemove (fsWrite fs (lf ++ ".tmp") bytes) lf
        else fsWrite fs (lf ++ ".tmp") bytes) (lf ++ ".tmp") lf) lf = some bytes ∧
    fsRead (fsRename (if fsExists (fsWrite fs (lf ++ ".tmp") bytes) lf
        then fsRemove (fsWrite fs (lf ++ ".tmp") bytes) lf
        else fsWrite fs (lf ++ ".tmp") bytes) (lf ++ ".tmp") lf) (lf ++ ".tmp") = none := by
  apply rename_into_place
  rw [condRemove_read_other _ _ _ (tmp_ne lf)]
  exact fsRead_fsWrite_self _ _ _

/-- C3: once the local version is extracted and the release fetched, a
remote version not strictly above the local one yields success with the
filesystem untouched, whatever the download oracle would answer — no asset
is fetched; a strictly greater remote version proceeds to the download,
which lands in `local_file`. -/
theorem c3_download_only_when_strictly_newer (env : Env) (fs : FS) (cfg : Cfg)
    (repo lf vp nm s : String) (lv rv : PyVersion) (rel : Release)
    (h1 : dictGet cfg "github_repo" = some repo)
    (h2 : dictGet cfg "local_file" = some lf)
    (h3 : dictGet cfg "version_pattern" = some vp)
    (h4 : dictGet cfg "name" = some nm)
    (h5 : get_local_version env fs lf vp = .ok (some s))
    (h6 : s ≠ "")
    (h7 : versionParse s = some lv)
    (h8 : env.fetchRelease repo = .ok rel)
    (h9 : versionParse (lstripV rel.tag_name) = some rv) :
    (vle rv lv = true →
      ∀ d, update_repository { env with download := d } fs cfg = (fs, .ok true)) ∧
    (vle rv lv = false → ∀ url bytes,
      find_asset_url env rel ((dictGet cfg "asset_pattern").getD vp) = some url →
      env.download url = .ok bytes →
      (update_repository env fs cfg).2 = .ok true ∧
      fsRead (update_repository env fs cfg).1 lf = some bytes) := by
  constructor
  · intro hle d
    have h5d : get_local_version { env with download := d } fs lf vp
        = Except.ok (some s) := h5
    have h8d : get_latest_release { env with download := d } repo
        = Except.ok rel := h8
    simp [update_repository, updateBody, h1, h2, h3, h4, h5d, h6, h7, h8d, h9, hle]
  · intro hle url bytes hfind hdl
    rw [update_run_success env fs cfg repo lf vp nm s url bytes lv rv rel
      h1 h2 h3 h4 h5 h6 h7 h8 h9 hle hfind hdl]
    exact ⟨rfl, (replaced_reads fs lf bytes).1⟩

/-- C3 witness: against the up-to-date repository the orchestrator returns
success with the filesystem untouched, for an arbitrary download oracle. -/
theorem c3_download_only_when_strictly_newer_witness :
    update_repository { exEnv with download := exEnv.download } exFS exCfgOld
      = (exFS, .ok true) :=
  (c3_download_only_when_strictly_newer exEnv exFS exCfgOld "owner/old"
    "tool.bin" "VP" "tool" "1.2.0" ⟨[1, 2, 0], none⟩ ⟨[1, 2, 0], none⟩
    exReleaseOld rfl rfl rfl rfl rfl (by decide) rfl rfl rfl).1
    (by decide) exEnv.download

/-- C4: when the download step fails — non-success status before the file
is opened, or a stream broken after a partial write — the handler removes
the temporary file, so `<local_file>.tmp` does not exist afterwards, the
pre-existing `local_file` is byte-for-byte unchanged, and the orchestrator
reports failure for this repository only (it returns `False` rather than
letting the exception escape). -/
theorem c4_download_failure_cleanup (env : Env) (fs : FS) (cfg : Cfg)
    (repo lf vp nm s url : String) (pb : Bytes) (lv rv : PyVersion) (rel : Release)
    (h1 : dictGet cfg "github_repo" = some repo)
    (h2 : dictGet cfg "local_file" = some lf)
    (h3 : dictGet cfg "version_pattern" = some vp)
    (h4 : dictGet cfg "name" = some nm)
    (h5 : get_local_version env fs lf vp = .ok (some s))
    (h6 : s ≠ "")
    (h7 : versionParse s = some lv)
    (h8 : env.fetchRelease repo = .ok rel)
    (h9 : versionParse (lstripV rel.tag_name) = some rv)
    (hle : vle rv lv = false)
    (hfind : find_asset_url env rel ((dictGet cfg "asset_pattern").getD vp) = some url)
    (hdl : env.download url = .httpError ∨ env.download url = .streamBroken pb) :
    (update_repository env fs cfg).2 = .ok false ∧
    fsRead (update_repository env fs cfg).1 (lf ++ ".tmp") = none ∧
    fsRead (update_repository env fs cfg).1 lf = fsRead fs lf := by
  have h8g : get_latest_release env repo = Except.ok rel := h8
  have hlf : lf ≠ lf ++ ".tmp" := (tmp_ne lf).symm
  rcases hdl with hdl | hdl
  · have hrun : update_repository env fs cfg =
        (if fsExists fs (lf ++ ".tmp") then fsRemove fs (lf ++ ".tmp") else fs,
          .ok false) := by
      simp [update_repository, updateBody, h1, h2, h3, h4, h5, h6, h7, h8g, h9,
        hle, hfind, download_file, hdl]
    rw [hrun]
    exact ⟨rfl, condRemove_read_self fs (lf ++ ".tmp"),
      condRemove_read_other fs (lf ++ ".tmp") lf hlf⟩
  · have hrun : update_repository env fs cfg =
        (if fsExists (fsWrite fs (lf ++ ".tmp") pb) (lf ++ ".tmp")
          then fsRemove (fsWrite fs (lf ++ ".tmp") pb) (lf ++ ".tmp")
          else fsWrite fs (lf ++ ".tmp") pb, .ok false) := by
      simp [update_repository, updateBody, h1, h2, h3, h4, h5, h6, h7, h8g, h9,
        hle, hfind, download_file, hdl]
    rw [hrun]
    refine ⟨rfl, condRemove_read_self _ _, ?_⟩
    rw [condRemove_read_other _ _ _ hlf]
    exact fsRead_fsWrite_ne fs (lf ++ ".tmp") lf pb hlf

/-- C4 witness: the repository whose asset URL breaks mid-stream fails,
leaves no temporary file and keeps the original bytes in place. -/
theorem c4_download_failure_cleanup_witness :
    (update_repository exEnv exFS exCfgBad).2 = .ok false ∧
    fsRead (update_repository exEnv exFS exCfgBad).1 ("tool.bin" ++ ".tmp") = none ∧
    fsRead (update_repository exEnv exFS exCfgBad).1 "tool.bin" = fsRead exFS "tool.bin" :=
  c4_download_failure_cleanup exEnv exFS exCfgBad "owner/bad" "tool.bin" "VP"
    "tool" "1.2.0" "BAD" [7] ⟨[1, 2, 0], none⟩ ⟨[1, 3, 0], none⟩ exReleaseBad
    rfl rfl rfl rfl rfl (by decide) rfl rfl rfl (by decide) rfl (Or.inr rfl)

/-- C7: on a successful update the replacement happens exactly as: download
the asset bytes to `<local_file>.tmp`, remove `local_file` when present,
rename the temporary file to `local_file`; afterwards `local_file` holds
the downloaded bytes and the temporary path does not exist. -/
theorem c7_replace_semantics (env : Env) (fs : FS) (cfg : Cfg)
    (repo lf vp nm s url : String) (bytes : Bytes) (lv rv : PyVersion) (rel : Release)
    (h1 : dictGet cfg "github_repo" = some repo)
    (h2 : dictGet cfg "local_file" = some lf)
    (h3 : dictGet cfg "version_pattern" = some vp)
    (h4 : dictGet cfg "name" = some nm)
    (h5 : get_local_version env fs lf vp = .ok (some s))
    (h6 : s ≠ "")
    (h7 : versionParse s = some lv)
    (h8 : env.fetchRelease repo = .ok rel)
    (h9 : versionParse (lstripV rel.tag_name) = some rv)
    (hle : vle rv lv = false)
    (hfind : find_asset_url env rel ((dictGet cfg "asset_pattern").getD vp) = some url)
    (hdl : env.download url = .ok bytes) :
    update_repository env fs cfg =
      (fsRename (if fsExists (fsWrite fs (lf ++ ".tmp") bytes) lf
          then fsRemove (fsWrite fs (lf ++ ".tmp") bytes) lf
          else fsWrite fs (lf ++ ".tmp") bytes) (lf ++ ".tmp") lf,
        .ok true) ∧
    fsRead (update_repository env fs cfg).1 lf = some bytes ∧
    fsRead (update_repository env fs cfg).1 (lf ++ ".tmp") = none := by
  have hrun := update_run_success env fs cfg repo lf vp nm s url bytes lv rv rel
    h1 h2 h3 h4 h5 h6 h7 h8 h9 hle hfind hdl
  rw [hrun]
  exact ⟨rfl, (replaced_reads fs lf bytes).1, (replaced_reads fs lf bytes).2⟩

/-- C7 witness: the end-to-end success scenario; the artifact afterwards
holds the downloaded bytes and no temporary file remains. -/
theorem c7_replace_semantics_witness :
    fsRead (update_repository exEnv exFS exCfg).1 "tool.bin" = some [9, 9] ∧
    fsRead (update_repository exEnv exFS exCfg).1 ("tool.bin" ++ ".tmp") = none :=
  (c7_replace_semantics exEnv exFS exCfg "owner/repo" "tool.bin" "VP" "tool"
    "1.2.0" "URL" [9, 9] ⟨[1, 2, 0], none⟩ ⟨[1, 3, 0], none⟩ exRelease
    rfl rfl rfl rfl rfl (by decide) rfl rfl rfl (by decide) rfl rfl).2

end VersionUpdater
